import Mathlib

/-!
Shallow embedding of the EduTranslate-Live client (React single-page app,
`src/unnamed/part_000` plus `src/constants.ts`) for verification of its
specification.  The embedding covers:

* the PCM transport codec (`encodeAudio` / `decodeAudio`), modelled from the
  spec because `services/audioService` is not part of the sources;
* the playback scheduler state carried in `nextStartTimeRef` / `sourcesRef`
  and the `onmessage` audio-chunk branch and `interrupted` branch;
* the transcript history store (`saveToHistory`, `toggleRole`,
  `clearHistory`) and its `TranscriptEntry` records;
* the capture pipeline (`onaudioprocess`): float sample to 16-bit integer
  conversion, frame packing and the realtime frame sent to the session;
* the session controller state (`stopSession`, `onmessage` dispatch).

Time and audio-sample values are modelled as rationals; the JavaScript
float operations involved (comparisons, `max`, additions of durations,
multiplication by the power of two 32768) are exact on the represented
values, so the rational model is faithful for the scheduling and
conversion facts proved here.  Nondeterministic inputs of the real code
(`Math.random`-derived ids, `Date.now()` timestamps, `ctx.currentTime`
clock readings, fresh source-node handles) become explicit parameters.
-/

namespace EduTranslate

/-! ## PCM codec

Modelled from the spec: `services/audioService` (`encodeAudio`,
`decodeAudio`, `decodeAudioData`) is imported by the app but its file is
not among the sources.  The spec describes it as a transport-safe
base64-equivalent text encoding of byte buffers: `encode` is
deterministic and total, `decode` fails on malformed input, and the two
must round-trip.  We model standard base64 with `=`-padding over bytes
(numbers `< 256`). -/

def base64Chars : List Char :=
  ("ABCDEFGHIJKLMNOPQRSTUVWXYZabcdefghijklmnopqrstuvwxyz0123456789+/").data

def sextetToChar (n : Nat) : Char :=
  base64Chars.getD n ('A')

def charToSextet (c : Char) : Option Nat :=
  base64Chars.indexOf? c

def encodeChunks : List Nat → List Char
  | [] => []
  | [b0] =>
      [sextetToChar (b0 / 4), sextetToChar (b0 % 4 * 16), '=', '=']
  | [b0, b1] =>
      [sextetToChar (b0 / 4), sextetToChar (b0 % 4 * 16 + b1 / 16),
       sextetToChar (b1 % 16 * 4), '=']
  | b0 :: b1 :: b2 :: rest =>
      sextetToChar (b0 / 4) :: sextetToChar (b0 % 4 * 16 + b1 / 16) ::
      sextetToChar (b1 % 16 * 4 + b2 / 64) :: sextetToChar (b2 % 64) ::
      encodeChunks rest

def decodeChunks : List Char → Option (List Nat)
  | [] => some []
  | c1 :: c2 :: c3 :: c4 :: rest =>
      match charToSextet c1, charToSextet c2, charToSextet c3, charToSextet c4 with
      | some s1, some s2, some s3, some s4 =>
          (decodeChunks rest).map
            (fun bs => (s1 * 4 + s2 / 16) :: (s2 % 16 * 16 + s3 / 4) ::
                       (s3 % 4 * 64 + s4) :: bs)
      | some s1, some s2, some s3, none =>
          if c4 = '=' ∧ rest = [] then
            some [s1 * 4 + s2 / 16, s2 % 16 * 16 + s3 / 4]
          else none
      | some s1, some s2, none, none =>
          if c3 = '=' ∧ c4 = '=' ∧ rest = [] then
            some [s1 * 4 + s2 / 16]
          else none
      | _, _, _, _ => none
  | _ => none

def encodeAudio (bytes : List Nat) : String :=
  String.mk (encodeChunks bytes)

def decodeAudio (s : String) : Option (List Nat) :=
  decodeChunks s.data

/-- Duration computed by `decodeAudioData(bytes, ctx, 24000, 1)`: raw little-endian 16-bit PCM
interpreted at the given sample rate; a trailing odd byte is truncated, so
the playable buffer holds `bytes.length / 2` samples and its `duration` is
that sample count divided by the sample rate (seconds). -/
def bufferDuration (bytes : List Nat) (sampleRate : Nat) : ℚ :=
  ((bytes.length / 2 : Nat) : ℚ) / (sampleRate : ℚ)

/-! ## Playback scheduler

State held by the app in `nextStartTimeRef` (the next scheduled start
time on the output clock) and `sourcesRef` (the set of in-flight
`AudioBufferSourceNode` handles).  We additionally record which handles
have received `stop()`, to state that an interruption stops everything
in flight.  Handles are identified by numbers. -/

structure SchedulerState where
  nextStartTime : ℚ
  inFlight : List Nat
  stoppedHandles : List Nat
deriving Repr, DecidableEq

/-- The audio branch of `onmessage` (part_000 lines 185-196): bump
`nextStartTimeRef` to `max(nextStartTimeRef, ctx.currentTime)`, start the
new source at that time, advance `nextStartTimeRef` by the buffer's
duration, and add the source to the in-flight set.  Returns the updated
state together with the start time passed to `source.start`. -/
def enqueueChunk (st : SchedulerState) (now dur : ℚ) (handle : Nat) :
    SchedulerState × ℚ :=
  let startAt := max st.nextStartTime now
  ({ st with nextStartTime := startAt + dur, inFlight := handle :: st.inFlight },
   startAt)

/-- The `interrupted` branch of `onmessage` (part_000 lines 211-215):
`sourcesRef.current.forEach(s => s.stop())`, clear the set, reset
`nextStartTimeRef` to 0. -/
def interrupt (st : SchedulerState) : SchedulerState :=
  { nextStartTime := 0, inFlight := [],
    stoppedHandles := st.stoppedHandles ++ st.inFlight }

/-- Run a sequence of enqueues; each chunk arrives at clock reading `now`
with decoded duration `dur` and gets a fresh `handle`.  Returns the list
of `(startTime, duration)` pairs actually scheduled. -/
def runEnqueues (st : SchedulerState) : List (ℚ × ℚ × Nat) → List (ℚ × ℚ)
  | [] => []
  | (now, dur, handle) :: rest =>
      let step := enqueueChunk st now dur handle
      (step.2, dur) :: runEnqueues step.1 rest

/-! ## Transcript history store -/

structure TranscriptEntry where
  id : String
  timestamp : Nat
  text : String
  translation : String
  sourceLang : String
  role : String
deriving Repr, DecidableEq

instance : Inhabited TranscriptEntry :=
  ⟨{ id := "", timestamp := 0, text := "", translation := "",
     sourceLang := "", role := "" }⟩

/-- The regex test `input.match(/[฀-๿]/)` of `saveToHistory`:
true iff some character of the string lies in the Thai Unicode block. -/
def containsThai (s : String) : Bool :=
  s.data.any (fun c => decide (0xE00 ≤ c.toNat ∧ c.toNat ≤ 0xE7F))

/-- JavaScript `String.prototype.trim()`: strip leading and trailing
whitespace characters. -/
def jsTrim (s : String) : String :=
  String.mk
    (((s.data.dropWhile Char.isWhitespace).reverse.dropWhile
      Char.isWhitespace).reverse)

/-- The record literal pushed by `saveToHistory` (part_000 lines 92-99).
The id (`Math.random().toString(36).substr(2, 9)`) and the timestamp
(`Date.now()`) are nondeterministic inputs and become parameters. -/
def mkTranscriptEntry (newId : String) (ts : Nat) (input output : String) :
    TranscriptEntry :=
  { id := newId, timestamp := ts, text := input, translation := output,
    sourceLang := if containsThai input then "Thai" else "Chinese",
    role := "Professor" }

/-- Function `saveToHistory` (part_000 lines 88-105), restricted to its effect on
the transcripts list: push a new entry iff `input.trim() || output.trim()`
is truthy (a JavaScript string is truthy iff non-empty).  The
accumulators are cleared unconditionally afterwards; that clearing is
modelled where the controller state is available. -/
def saveToHistory (newId : String) (ts : Nat) (input output : String)
    (prev : List TranscriptEntry) : List TranscriptEntry :=
  if (jsTrim input != "") || (jsTrim output != "") then
    prev ++ [mkTranscriptEntry newId ts input output]
  else prev

/-- Function `toggleRole` (part_000 lines 232-234). -/
def toggleRole (tid : String) (l : List TranscriptEntry) :
    List TranscriptEntry :=
  l.map (fun t =>
    if t.id = tid then
      { t with role := if t.role = "Professor" then "Student" else "Professor" }
    else t)

/-- Function `clearHistory` (part_000 lines 236-241), restricted to its effect on
the transcripts list. -/
def clearHistory (_l : List TranscriptEntry) : List TranscriptEntry := []

/-! ## Capture pipeline

Embedding of the `onaudioprocess` handler (part_000 lines 170-179).
Samples are rationals; the JavaScript multiplication by 32768 = 2^15 is
exact on binary floats, so the rational model is faithful.  Storing into
an `Int16Array` applies the ECMAScript ToInt16 conversion: truncate the
number toward zero, reduce modulo 2^16, and reinterpret the residue as a
signed 16-bit value. -/

def ratTrunc (q : ℚ) : Int :=
  if 0 ≤ q then ⌊q⌋ else ⌈q⌉

def wrap16 (n : Int) : Int :=
  if 32768 ≤ n % 65536 then n % 65536 - 65536 else n % 65536

/-- ECMAScript store `int16[i] = inputData[i] * 32768` (part_000 line 173):
no clamping, values outside the 16-bit range wrap. -/
def sampleToInt16 (s : ℚ) : Int :=
  wrap16 (ratTrunc (s * 32768))

/-- Conversion loop of `onaudioprocess`: one output word per input sample. -/
def processFrame (samples : List ℚ) : List Int :=
  samples.map sampleToInt16

/-- View of one 16-bit word through `new Uint8Array(int16.buffer)`
(little-endian two's complement). -/
def int16LEBytes (n : Int) : List Nat :=
  [((n % 65536) % 256).toNat, ((n % 65536) / 256).toNat]

def packFrame (xs : List Int) : List Nat :=
  (xs.map int16LEBytes).flatten

/-- Buffer size requested from `createScriptProcessor(4096, 1, 1)`
(part_000 line 169): each `onaudioprocess` frame carries 4096 samples. -/
def scriptProcessorBufferSize : Nat := 4096

structure RealtimeFrame where
  data : String
  mimeType : String
deriving Repr, DecidableEq

/-- Payload of `session.sendRealtimeInput` (part_000 lines 175-177). -/
def captureFrame (samples : List ℚ) : RealtimeFrame :=
  { data := encodeAudio (packFrame (processFrame samples)),
    mimeType := "audio/pcm;rate=16000" }

/-! ## Session controller -/

inductive SessionStatus
  | idle
  | connecting
  | listening
  | error
deriving Repr, DecidableEq

structure AppState where
  transcripts : List TranscriptEntry
  currentInput : String
  currentOutput : String
  status : SessionStatus
  isRecording : Bool
  sessionOpen : Bool
  streamOpen : Bool
  ctxInOpen : Bool
  ctxOutOpen : Bool
  scheduler : SchedulerState
  errorMessage : String
deriving Repr, DecidableEq

/-- Effect of `saveToHistory` on the whole controller state: push the
entry when one of the accumulators is non-blank, then clear both
accumulators (refs and React state) unconditionally. -/
def saveToHistoryApp (newId : String) (ts : Nat) (st : AppState) : AppState :=
  { st with
    transcripts := saveToHistory newId ts st.currentInput st.currentOutput
      st.transcripts,
    currentInput := "", currentOutput := "" }

/-! ### Teardown model for `stopSession`

Each fallible teardown call is represented as an `Except` action whose
failure is decided by an environment; the code wraps every such call in
`try { } catch { }` (or `.catch(() => {})`), which the `swallowErrors`
combinator mirrors.  `MediaStreamTrack.stop()` is specified by the Web
platform to throw no exception, so stopping stream tracks is modelled as
infallible. -/

structure TeardownEnv where
  sessionCloseFails : Bool
  ctxInCloseFails : Bool
  ctxOutCloseFails : Bool
  sourceStopFails : Nat → Bool

def attemptOp (fails : Bool) : Except String Unit :=
  if fails then Except.error "teardown failure" else Except.ok ()

def swallowErrors (act : Except String Unit) : Except String Unit :=
  match act with
  | Except.ok _ => Except.ok ()
  | Except.error _ => Except.ok ()

/-- Handles whose `stop()` call succeeds under the given environment. -/
def stoppedOf (env : TeardownEnv) (hs : List Nat) : List Nat :=
  hs.filter (fun h => ! env.sourceStopFails h)

/-- Loop `sourcesRef.current.forEach(source => { try { source.stop() } catch (e) {} })`
(part_000 lines 127-129).  Returns the handles whose `stop()` succeeded. -/
def stopSources (env : TeardownEnv) : List Nat → Except String (List Nat)
  | [] => Except.ok []
  | h :: rest => do
      swallowErrors (attemptOp (env.sourceStopFails h))
      let others ← stopSources env rest
      if env.sourceStopFails h then pure others else pure (h :: others)

/-- Function `stopSession` (part_000 lines 107-132): flush accumulators,
leave the recording state, then best-effort teardown of session, stream
tracks, both audio contexts and all in-flight sources, ending with the
scheduler cleared and `nextStartTimeRef` reset to 0. -/
def stopSessionE (newId : String) (ts : Nat) (env : TeardownEnv)
    (st : AppState) : Except String AppState := do
  let st1 := saveToHistoryApp newId ts st
  let st2 := { st1 with isRecording := false, status := SessionStatus.idle }
  let st3 ← if st2.sessionOpen then do
      swallowErrors (attemptOp env.sessionCloseFails)
      pure { st2 with sessionOpen := false }
    else pure st2
  let st4 := if st3.streamOpen then { st3 with streamOpen := false } else st3
  let st5 ← if st4.ctxInOpen then do
      swallowErrors (attemptOp env.ctxInCloseFails)
      pure { st4 with ctxInOpen := false }
    else pure st4
  let st6 ← if st5.ctxOutOpen then do
      swallowErrors (attemptOp env.ctxOutCloseFails)
      pure { st5 with ctxOutOpen := false }
    else pure st5
  let stopped ← stopSources env st6.scheduler.inFlight
  pure { st6 with scheduler :=
    { nextStartTime := 0, inFlight := [],
      stoppedHandles := st6.scheduler.stoppedHandles ++ stopped } }

/-! ### Inbound message dispatch (`onmessage`, part_000 lines 183-216)

One `LiveServerMessage` can carry any combination of payload fields; the
handler checks them in source order.  The clock reading at handling time,
the fresh source handle, and the id/timestamp oracles for a flush are
carried on the message as explicit inputs.  A decode failure on the audio
payload raises inside the async handler: side effects already performed
(the bump of `nextStartTimeRef`) persist, the remaining branches of that
message are skipped, and the exception is dropped by the event loop, so
dispatch continues with the next message. -/

structure ServerMsg where
  audioData : Option String
  inputTranscription : Option String
  outputTranscription : Option String
  turnComplete : Bool
  interrupted : Bool
  clockNow : ℚ
  freshHandle : Nat
  freshId : String
  msgTime : Nat
deriving Repr, DecidableEq

/-- Branches of `onmessage` after the audio branch, in source order. -/
def onmessageRest (msg : ServerMsg) (st : AppState) : AppState :=
  let stA := match msg.inputTranscription with
    | some t => { st with currentInput := st.currentInput ++ t }
    | none => st
  let stB := match msg.outputTranscription with
    | some t => { stA with currentOutput := stA.currentOutput ++ t }
    | none => stA
  let stC := if msg.turnComplete then saveToHistoryApp msg.freshId msg.msgTime stB
    else stB
  if msg.interrupted then { stC with scheduler := interrupt stC.scheduler }
  else stC

/-- The whole `onmessage` handler. -/
def onmessage (st : AppState) (msg : ServerMsg) : AppState :=
  match msg.audioData, st.ctxOutOpen with
  | some payload, true =>
      let sch1 := { st.scheduler with
        nextStartTime := max st.scheduler.nextStartTime msg.clockNow }
      match decodeAudio payload with
      | none => { st with scheduler := sch1 }
      | some bytes =>
          let dur := bufferDuration bytes 24000
          onmessageRest msg { st with scheduler :=
            { nextStartTime := sch1.nextStartTime + dur,
              inFlight := msg.freshHandle :: sch1.inFlight,
              stoppedHandles := sch1.stoppedHandles } }
  | _, _ => onmessageRest msg st

/-- Ordered dispatch of a sequence of inbound messages. -/
def processEvents (st : AppState) (msgs : List ServerMsg) : AppState :=
  msgs.foldl onmessage st

/-! ### History operations for role tracking -/

inductive HistoryOp
  | flush (newId : String) (ts : Nat) (input output : String)
  | toggle (tid : String)
  | clear
deriving Repr, DecidableEq

def applyHistoryOp (l : List TranscriptEntry) : HistoryOp → List TranscriptEntry
  | HistoryOp.flush newId ts input output => saveToHistory newId ts input output l
  | HistoryOp.toggle tid => toggleRole tid l
  | HistoryOp.clear => clearHistory l

def applyHistoryOps (l : List TranscriptEntry) (ops : List HistoryOp) :
    List TranscriptEntry :=
  ops.foldl applyHistoryOp l

def hasToggle (ops : List HistoryOp) : Bool :=
  ops.any (fun op => match op with
    | HistoryOp.toggle _ => true
    | _ => false)

/-- Run a sequence of turn-complete flushes, each drawing an id and a
timestamp from its oracle, against the store. -/
def runFlushes (l : List TranscriptEntry) :
    List (String × Nat × String × String) → List TranscriptEntry
  | [] => l
  | (newId, ts, input, output) :: rest =>
      runFlushes (saveToHistory newId ts input output l) rest

/-- A transcript entry with some visible content. -/
def entryNonEmpty (e : TranscriptEntry) : Prop :=
  e.text ≠ "" ∨ e.translation ≠ ""

instance (e : TranscriptEntry) : Decidable (entryNonEmpty e) := by
  unfold entryNonEmpty
  infer_instance

/-! ## Helper lemmas -/

lemma runEnqueues_head_ge (st : SchedulerState) (chunks : List (ℚ × ℚ × Nat)) :
    ∀ p ∈ (runEnqueues st chunks).head?, st.nextStartTime ≤ p.1 := by
  cases chunks with
  | nil => simp [runEnqueues]
  | cons c rest =>
      obtain ⟨now, dur, handle⟩ := c
      simp [runEnqueues, enqueueChunk, le_max_left]

lemma jsTrim_empty : jsTrim "" = "" := by decide

lemma ne_empty_of_jsTrim_ne_empty (s : String) (h : jsTrim s ≠ "") :
    s ≠ "" := by
  intro hs
  subst hs
  exact h jsTrim_empty

lemma saveToHistory_empty_accumulators (newId : String) (ts : Nat)
    (l : List TranscriptEntry) : saveToHistory newId ts "" "" l = l := by
  simp [saveToHistory, jsTrim_empty]

/-! ## C1: gapless playback scheduling -/

/-- C1: for every sequence of enqueued chunks (arbitrary arrival clock
readings, arbitrary durations), the start time of chunk `i+1` is at
least the end time (start time plus duration) of chunk `i`; each start
time is `max(nextScheduledStartTime, outputClock.now())` and the
scheduler then advances `nextScheduledStartTime` by the chunk's
duration. -/
theorem playback_scheduling_no_overlap (st : SchedulerState) (now dur : ℚ)
    (handle : Nat) (chunks : List (ℚ × ℚ × Nat)) :
    (enqueueChunk st now dur handle).2 = max st.nextStartTime now ∧
    (enqueueChunk st now dur handle).1.nextStartTime =
      (enqueueChunk st now dur handle).2 + dur ∧
    List.Chain' (fun a b : ℚ × ℚ => a.1 + a.2 ≤ b.1) (runEnqueues st chunks) := by
  refine ⟨rfl, rfl, ?_⟩
  induction chunks generalizing st with
  | nil => simp [runEnqueues]
  | cons c rest ih =>
      obtain ⟨cnow, cdur, chandle⟩ := c
      rw [runEnqueues, List.chain'_cons']
      refine ⟨?_, ih _⟩
      intro p hp
      have := runEnqueues_head_ge _ rest p hp
      simpa [enqueueChunk] using this

/-- Witness for C1 at a concrete chunk sequence. -/
theorem playback_scheduling_no_overlap_witness :
    List.Chain' (fun a b : ℚ × ℚ => a.1 + a.2 ≤ b.1)
      (runEnqueues ⟨0, [], []⟩ [(0, 1, 4), (5, 2, 6), (2, 1, 7)]) :=
  (playback_scheduling_no_overlap ⟨0, [], []⟩ 0 0 0
    [(0, 1, 4), (5, 2, 6), (2, 1, 7)]).2.2

/-! ## C2: interruption semantics -/

/-- C2: processing an interruption stops every in-flight handle, empties
the in-flight set, resets `nextScheduledStartTime` to zero, and is
idempotent (hence safe on an already-empty set, the `N = 0` case of the
universally quantified state). -/
theorem interrupt_clears_and_resets (st : SchedulerState) :
    (interrupt st).inFlight = [] ∧
    (interrupt st).nextStartTime = 0 ∧
    (∀ h ∈ st.inFlight, h ∈ (interrupt st).stoppedHandles) ∧
    interrupt (interrupt st) = interrupt st := by
  refine ⟨rfl, rfl, ?_, ?_⟩
  · intro h hh
    simp [interrupt, hh]
  · simp [interrupt]

/-- Witness for C2 with two in-flight handles. -/
theorem interrupt_clears_and_resets_witness :
    (interrupt ⟨5, [1, 2], []⟩).inFlight = [] ∧
    (interrupt ⟨5, [1, 2], []⟩).nextStartTime = 0 ∧
    (∀ h ∈ SchedulerState.inFlight ⟨5, [1, 2], []⟩,
      h ∈ (interrupt ⟨5, [1, 2], []⟩).stoppedHandles) ∧
    interrupt (interrupt ⟨5, [1, 2], []⟩) = interrupt ⟨5, [1, 2], []⟩ :=
  interrupt_clears_and_resets ⟨5, [1, 2], []⟩

/-! ## C3: no empty transcript entries -/

lemma mem_saveToHistory (newId : String) (ts : Nat) (input output : String)
    (l : List TranscriptEntry) (e : TranscriptEntry)
    (he : e ∈ saveToHistory newId ts input output l) :
    e ∈ l ∨ (e = mkTranscriptEntry newId ts input output ∧
      (jsTrim input ≠ "" ∨ jsTrim output ≠ "")) := by
  unfold saveToHistory at he
  by_cases hguard : ((jsTrim input != "") || (jsTrim output != "")) = true
  · rw [if_pos hguard] at he
    rcases List.mem_append.mp he with hl | hr
    · exact Or.inl hl
    · refine Or.inr ⟨List.mem_singleton.mp hr, ?_⟩
      rcases Bool.or_eq_true_iff.mp hguard with h | h
      · exact Or.inl (by simpa using h)
      · exact Or.inr (by simpa using h)
  · rw [if_neg hguard] at he
    exact Or.inl he

/-- C3: every entry in the store has non-empty source text or non-empty
translated text; a flush with both accumulators empty adds nothing, and
the invariant is preserved by flush, role toggle and bulk clear. -/
theorem history_entries_nonEmpty (newId : String) (ts : Nat)
    (input output tid : String) (l : List TranscriptEntry)
    (hl : ∀ e ∈ l, entryNonEmpty e) :
    saveToHistory newId ts "" "" l = l ∧
    (∀ e ∈ saveToHistory newId ts input output l, entryNonEmpty e) ∧
    (∀ e ∈ toggleRole tid l, entryNonEmpty e) ∧
    (∀ e ∈ clearHistory l, entryNonEmpty e) := by
  refine ⟨saveToHistory_empty_accumulators newId ts l, ?_, ?_, ?_⟩
  · intro e he
    rcases mem_saveToHistory newId ts input output l e he with hmem | ⟨rfl, hne⟩
    · exact hl e hmem
    · rcases hne with h | h
      · exact Or.inl (by
          simpa [mkTranscriptEntry] using ne_empty_of_jsTrim_ne_empty input h)
      · exact Or.inr (by
          simpa [mkTranscriptEntry] using ne_empty_of_jsTrim_ne_empty output h)
  · intro e he
    rcases List.mem_map.mp he with ⟨a, ha, rfl⟩
    have := hl a ha
    unfold entryNonEmpty at this ⊢
    by_cases hid : a.id = tid <;> simp [hid] <;> simpa using this
  · intro e he
    simp [clearHistory] at he

/-- Witness for C3: the entry flushed from a non-blank turn into an empty
store is non-empty. -/
theorem history_entries_nonEmpty_witness :
    entryNonEmpty (mkTranscriptEntry ("x1") 0 ("a") ("")) :=
  (history_entries_nonEmpty ("x1") 0 ("a") ("") ("z") [] (by simp)).2.1
    (mkTranscriptEntry ("x1") 0 ("a") ("")) (by decide)

/-! ## C4: language tag of a flushed turn -/

/-- C4: a flush that creates an entry appends exactly one record whose
`sourceLang` is `"Thai"` iff the accumulated source text has a character
in the Thai Unicode block, else `"Chinese"`; in particular source
`"สวัสดี"` with translation `"你好"` yields one entry tagged Thai and
source `"你好吗"` yields one tagged Chinese. -/
theorem flush_language_tag (newId : String) (ts : Nat) (input output : String)
    (l : List TranscriptEntry)
    (hguard : ((jsTrim input != "") || (jsTrim output != "")) = true) :
    saveToHistory newId ts input output l =
      l ++ [mkTranscriptEntry newId ts input output] ∧
    (mkTranscriptEntry newId ts input output).sourceLang =
      (if containsThai input then "Thai" else "Chinese") ∧
    saveToHistory newId ts ("สวัสดี") ("你好") l =
      l ++ [mkTranscriptEntry newId ts ("สวัสดี") ("你好")] ∧
    (mkTranscriptEntry newId ts ("สวัสดี") ("你好")).sourceLang = "Thai" ∧
    saveToHistory newId ts ("你好吗") ("") l =
      l ++ [mkTranscriptEntry newId ts ("你好吗") ("")] ∧
    (mkTranscriptEntry newId ts ("你好吗") ("")).sourceLang = "Chinese" := by
  have hthai : containsThai ("สวัสดี") = true := by decide
  have hcn : containsThai ("你好吗") = false := by decide
  have hg1 : ((jsTrim "สวัสดี" != "") || (jsTrim "你好" != "")) = true := by decide
  have hg2 : ((jsTrim "你好吗" != "") || (jsTrim "" != "")) = true := by decide
  refine ⟨?_, rfl, ?_, ?_, ?_, ?_⟩
  · simp [saveToHistory, hguard]
  · simp [saveToHistory, hg1]
  · simp [mkTranscriptEntry, hthai]
  · simp [saveToHistory, hg2]
  · simp [mkTranscriptEntry, hcn]

/-- Witness for C4 at a concrete flush. -/
theorem flush_language_tag_witness :
    saveToHistory ("id9") 7 ("สวัสดี") ("你好") [] =
      [] ++ [mkTranscriptEntry ("id9") 7 ("สวัสดี") ("你好")] ∧
    (mkTranscriptEntry ("id9") 7 ("สวัสดี") ("你好")).sourceLang = "Thai" :=
  ⟨(flush_language_tag ("id9") 7 ("a") ("") [] (by decide)).2.2.1,
   (flush_language_tag ("id9") 7 ("a") ("") [] (by decide)).2.2.2.1⟩

/-! ## C6: uniqueness of entry ids -/

lemma saveToHistory_ids (newId : String) (ts : Nat) (input output : String)
    (l : List TranscriptEntry) :
    (saveToHistory newId ts input output l).map TranscriptEntry.id =
        l.map TranscriptEntry.id ∨
    (saveToHistory newId ts input output l).map TranscriptEntry.id =
        l.map TranscriptEntry.id ++ [newId] := by
  unfold saveToHistory
  split
  · right
    simp [mkTranscriptEntry]
  · left
    rfl

lemma runFlushes_ids_sublist (ops : List (String × Nat × String × String))
    (l : List TranscriptEntry) :
    ((runFlushes l ops).map TranscriptEntry.id).Sublist
      (l.map TranscriptEntry.id ++ ops.map (fun op => op.1)) := by
  induction ops generalizing l with
  | nil => simp [runFlushes]
  | cons op rest ih =>
      obtain ⟨newId, ts, input, output⟩ := op
      rw [runFlushes]
      have step := ih (saveToHistory newId ts input output l)
      rcases saveToHistory_ids newId ts input output l with hsame | hpush
      · rw [hsame] at step
        refine step.trans ?_
        exact List.Sublist.append_left (List.sublist_cons_self _ _) _
      · rw [hpush] at step
        refine step.trans ?_
        simp [List.append_assoc]

/-- C6 counterexample: the id comes from `Math.random()` with no
uniqueness check, so two flushes whose id oracle repeats a value produce
two distinct entries sharing the same id. -/
theorem duplicate_id_counterexample :
    ((runFlushes [] [("dupid", 0, "a", ""), ("dupid", 1, "b", "")]).length = 2) ∧
    (runFlushes [] [("dupid", 0, "a", ""), ("dupid", 1, "b", "")]).getD 0 default ≠
      (runFlushes [] [("dupid", 0, "a", ""), ("dupid", 1, "b", "")]).getD 1 default ∧
    ((runFlushes [] [("dupid", 0, "a", ""), ("dupid", 1, "b", "")]).getD 0 default).id =
      ((runFlushes [] [("dupid", 0, "a", ""), ("dupid", 1, "b", "")]).getD 1 default).id := by
  decide

/-- C6 amended: ids of flushed entries are exactly the values drawn from
the id oracle, so whenever the oracle values for the flush sequence
together with the ids already in the store are pairwise distinct, all
entries in the resulting store carry pairwise distinct ids. -/
theorem flush_ids_distinct (ops : List (String × Nat × String × String))
    (l : List TranscriptEntry)
    (hnd : (l.map TranscriptEntry.id ++ ops.map (fun op => op.1)).Nodup) :
    ((runFlushes l ops).map TranscriptEntry.id).Nodup :=
  hnd.sublist (runFlushes_ids_sublist ops l)

/-- Witness for C6 amended: two flushes with distinct oracle ids. -/
theorem flush_ids_distinct_witness :
    ((runFlushes [] [("ida", 0, "a", ""), ("idb", 1, "b", "")]).map
      TranscriptEntry.id).Nodup :=
  flush_ids_distinct [("ida", 0, "a", ""), ("idb", 1, "b", "")] [] (by decide)

/-! ## C7: codec round-trip -/

lemma charToSextet_sextetToChar : ∀ n < 64, charToSextet (sextetToChar n) = some n := by
  decide

lemma charToSextet_pad : charToSextet '=' = none := by decide

lemma decodeChunks_encodeChunks :
    ∀ b : List Nat, (∀ x ∈ b, x < 256) →
      decodeChunks (encodeChunks b) = some b := by
  intro b
  induction b using encodeChunks.induct with
  | case1 =>
      intro _
      rfl
  | case2 b0 =>
      intro h
      have hb0 : b0 < 256 := h b0 (by simp)
      have e1 : charToSextet (sextetToChar (b0 / 4)) = some (b0 / 4) :=
        charToSextet_sextetToChar _ (by omega)
      have e2 : charToSextet (sextetToChar (b0 % 4 * 16)) = some (b0 % 4 * 16) :=
        charToSextet_sextetToChar _ (by omega)
      simp only [encodeChunks, decodeChunks, e1, e2, charToSextet_pad,
        Option.some.injEq, List.cons.injEq, and_true, eq_self_iff_true, if_true]
      omega
  | case3 b0 b1 =>
      intro h
      have hb0 : b0 < 256 := h b0 (by simp)
      have hb1 : b1 < 256 := h b1 (by simp)
      have e1 : charToSextet (sextetToChar (b0 / 4)) = some (b0 / 4) :=
        charToSextet_sextetToChar _ (by omega)
      have e2 : charToSextet (sextetToChar (b0 % 4 * 16 + b1 / 16)) =
          some (b0 % 4 * 16 + b1 / 16) :=
        charToSextet_sextetToChar _ (by omega)
      have e3 : charToSextet (sextetToChar (b1 % 16 * 4)) = some (b1 % 16 * 4) :=
        charToSextet_sextetToChar _ (by omega)
      simp only [encodeChunks, decodeChunks, e1, e2, e3, charToSextet_pad,
        Option.some.injEq, List.cons.injEq, and_true, eq_self_iff_true, if_true]
      omega
  | case4 b0 b1 b2 rest ih =>
      intro h
      have hb0 : b0 < 256 := h b0 (by simp)
      have hb1 : b1 < 256 := h b1 (by simp)
      have hb2 : b2 < 256 := h b2 (by simp)
      have e1 : charToSextet (sextetToChar (b0 / 4)) = some (b0 / 4) :=
        charToSextet_sextetToChar _ (by omega)
      have e2 : charToSextet (sextetToChar (b0 % 4 * 16 + b1 / 16)) =
          some (b0 % 4 * 16 + b1 / 16) :=
        charToSextet_sextetToChar _ (by omega)
      have e3 : charToSextet (sextetToChar (b1 % 16 * 4 + b2 / 64)) =
          some (b1 % 16 * 4 + b2 / 64) :=
        charToSextet_sextetToChar _ (by omega)
      have e4 : charToSextet (sextetToChar (b2 % 64)) = some (b2 % 64) :=
        charToSextet_sextetToChar _ (by omega)
      have hrest : decodeChunks (encodeChunks rest) = some rest :=
        ih (fun x hx => h x (by simp [hx]))
      simp only [encodeChunks, decodeChunks, e1, e2, e3, e4, hrest,
        Option.map_some', Option.some.injEq, List.cons.injEq, and_true,
        eq_self_iff_true, if_true]
      omega

/-- C7 (spec-modelled codec): decoding an encoded byte buffer returns the
buffer unchanged; `encodeAudio` is a total Lean function, hence
deterministic with no failure mode. -/
theorem encodeAudio_decodeAudio_roundTrip (b : List Nat)
    (h : ∀ x ∈ b, x < 256) : decodeAudio (encodeAudio b) = some b :=
  decodeChunks_encodeChunks b h

/-- Witness for C7 on a concrete buffer. -/
theorem encodeAudio_decodeAudio_roundTrip_witness :
    (∀ x ∈ [1, 255, 0, 77, 128], x < 256) ∧
    decodeAudio (encodeAudio [1, 255, 0, 77, 128]) = some [1, 255, 0, 77, 128] :=
  ⟨by decide, encodeAudio_decodeAudio_roundTrip [1, 255, 0, 77, 128] (by decide)⟩

/-! ## C8: capture pipeline sample conversion -/

lemma ratTrunc_intCast (n : Int) : ratTrunc (n : ℚ) = n := by
  unfold ratTrunc
  split
  · simp
  · simp

lemma ratTrunc_bounds (q : ℚ) (h1 : -32768 ≤ q) (h2 : q < 32768) :
    -32768 ≤ ratTrunc q ∧ ratTrunc q ≤ 32767 := by
  unfold ratTrunc
  by_cases h : 0 ≤ q
  · rw [if_pos h]
    have hl : (0 : ℤ) ≤ ⌊q⌋ := Int.floor_nonneg.mpr h
    have hu : ⌊q⌋ < (32768 : ℤ) := by
      rw [Int.floor_lt]
      exact_mod_cast h2
    omega
  · rw [if_neg h]
    have hu : ⌈q⌉ ≤ (0 : ℤ) := by
      rw [Int.ceil_le]
      exact_mod_cast (le_of_lt (lt_of_not_le h))
    have hl : (-32768 : ℤ) ≤ ⌈q⌉ := by
      have hc := Int.le_ceil q
      exact_mod_cast le_trans h1 hc
    omega

lemma wrap16_id (n : Int) (h1 : -32768 ≤ n) (h2 : n ≤ 32767) : wrap16 n = n := by
  unfold wrap16
  omega

/-- C8: frames are 4096 samples, converted one 16-bit word per sample and
sent tagged `audio/pcm;rate=16000`; an in-range sample is exactly
`trunc(s * 32768)` (no clamping), and the boundary sample `1.0` wraps to
`-32768` rather than clamping to `32767`. -/
theorem capture_frame_conversion (s : ℚ) (h1 : -1 ≤ s) (h2 : s < 1) :
    scriptProcessorBufferSize = 4096 ∧
    (∀ samples : List ℚ, (processFrame samples).length = samples.length) ∧
    (∀ samples : List ℚ, (captureFrame samples).mimeType = "audio/pcm;rate=16000") ∧
    (∀ samples : List ℚ, (captureFrame samples).data =
      encodeAudio (packFrame (processFrame samples))) ∧
    sampleToInt16 s = ratTrunc (s * 32768) ∧
    sampleToInt16 1 = -32768 := by
  refine ⟨rfl, fun samples => by simp [processFrame], fun _ => rfl, fun _ => rfl,
    ?_, ?_⟩
  · have hq1 : (-32768 : ℚ) ≤ s * 32768 := by linarith
    have hq2 : s * 32768 < 32768 := by linarith
    obtain ⟨hl, hu⟩ := ratTrunc_bounds _ hq1 hq2
    unfold sampleToInt16
    exact wrap16_id _ hl hu
  · have hc : (1 : ℚ) * 32768 = ((32768 : Int) : ℚ) := by norm_num
    unfold sampleToInt16
    rw [hc, ratTrunc_intCast]
    decide

/-- Witness for C8 at the in-range sample `1/2`. -/
theorem capture_frame_conversion_witness :
    (-1 ≤ (1/2 : ℚ)) ∧ ((1/2 : ℚ) < 1) ∧
    sampleToInt16 (1/2) = ratTrunc ((1/2 : ℚ) * 32768) :=
  ⟨by norm_num, by norm_num,
    (capture_frame_conversion (1/2) (by norm_num) (by norm_num)).2.2.2.2.1⟩

/-! ## C5: double stop and best-effort teardown -/

lemma swallowErrors_attemptOp (b : Bool) :
    swallowErrors (attemptOp b) = Except.ok () := by
  cases b <;> rfl

lemma stopSources_eq (env : TeardownEnv) :
    ∀ hs : List Nat, stopSources env hs = Except.ok (stoppedOf env hs) := by
  intro hs
  induction hs with
  | nil => rfl
  | cons h rest ih =>
      rw [stopSources]
      cases hf : env.sourceStopFails h <;>
        simp [swallowErrors_attemptOp, ih, stoppedOf, hf] <;> rfl

lemma saveToHistory_length (newId : String) (ts : Nat) (input output : String)
    (l : List TranscriptEntry) :
    (saveToHistory newId ts input output l).length ≤ l.length + 1 := by
  unfold saveToHistory
  split <;> simp

lemma stopSessionE_eq (newId : String) (ts : Nat) (env : TeardownEnv)
    (st : AppState) :
    stopSessionE newId ts env st = Except.ok
      { transcripts := saveToHistory newId ts st.currentInput st.currentOutput
          st.transcripts,
        currentInput := "", currentOutput := "",
        status := SessionStatus.idle, isRecording := false,
        sessionOpen := false, streamOpen := false,
        ctxInOpen := false, ctxOutOpen := false,
        scheduler := { nextStartTime := 0, inFlight := [],
                       stoppedHandles := st.scheduler.stoppedHandles ++
                         stoppedOf env st.scheduler.inFlight },
        errorMessage := st.errorMessage } := by
  obtain ⟨tr, ci, co, stat, rec, so, stro, cio, coo, sch, em⟩ := st
  unfold stopSessionE saveToHistoryApp
  cases so <;> cases stro <;> cases cio <;> cases coo <;>
    simp [swallowErrors_attemptOp, stopSources_eq] <;> rfl

/-- C5: `stop()` never raises for any state and any teardown-failure
environment (all teardown failures are swallowed); the first call leaves
both accumulators empty and appends at most one flushed entry, and a
second call appends nothing. -/
theorem stopSession_reentrant (newId1 newId2 : String) (ts1 ts2 : Nat)
    (env1 env2 : TeardownEnv) (st : AppState) :
    ∃ st1 st2,
      stopSessionE newId1 ts1 env1 st = Except.ok st1 ∧
      stopSessionE newId2 ts2 env2 st1 = Except.ok st2 ∧
      st1.currentInput = "" ∧ st1.currentOutput = "" ∧
      st1.transcripts.length ≤ st.transcripts.length + 1 ∧
      st2.transcripts = st1.transcripts := by
  refine ⟨_, _, stopSessionE_eq newId1 ts1 env1 st, stopSessionE_eq newId2 ts2 env2 _,
    rfl, rfl, saveToHistory_length newId1 ts1 _ _ _, ?_⟩
  exact saveToHistory_empty_accumulators newId2 ts2 _

/-! ## C9: malformed audio payload is recoverable -/

lemma onmessageRest_status (msg : ServerMsg) (st : AppState) :
    (onmessageRest msg st).status = st.status := by
  obtain ⟨aud, itr, otr, tc, intr, now, fh, fid, mt⟩ := msg
  unfold onmessageRest saveToHistoryApp
  cases itr <;> cases otr <;> cases tc <;> cases intr <;> rfl

lemma onmessage_status (st : AppState) (msg : ServerMsg) :
    (onmessage st msg).status = st.status := by
  obtain ⟨aud, itr, otr, tc, intr, now, fh, fid, mt⟩ := msg
  obtain ⟨tr, ci, co, stat, rec, so, stro, cio, coo, sch, em⟩ := st
  cases aud with
  | none => exact onmessageRest_status _ _
  | some payload =>
      cases coo with
      | false => exact onmessageRest_status _ _
      | true =>
          cases hdec : decodeAudio payload with
          | none => simp [onmessage, hdec]
          | some bytes => simp [onmessage, hdec, onmessageRest_status]

lemma processEvents_status (msgs : List ServerMsg) :
    ∀ st : AppState, (processEvents st msgs).status = st.status := by
  induction msgs with
  | nil => intro st; rfl
  | cons m rest ih =>
      intro st
      show (processEvents (onmessage st m) rest).status = st.status
      rw [ih (onmessage st m), onmessage_status]

/-- C9: a malformed audio payload does not terminate the session: the
handler for that event only bumps the scheduler clock, dispatch of all
subsequent events proceeds unchanged, and the state machine stays in
`listening`. -/
theorem malformed_audio_recoverable (st : AppState) (pre suf : List ServerMsg)
    (msg : ServerMsg) (payload : String)
    (haud : msg.audioData = some payload) (hmal : decodeAudio payload = none)
    (hstatus : st.status = SessionStatus.listening) :
    (processEvents st (pre ++ msg :: suf)).status = SessionStatus.listening ∧
    processEvents st (pre ++ msg :: suf) =
      processEvents (onmessage (processEvents st pre) msg) suf ∧
    (st.ctxOutOpen = true →
      onmessage st msg = { st with scheduler := { st.scheduler with
        nextStartTime := max st.scheduler.nextStartTime msg.clockNow } }) := by
  refine ⟨?_, ?_, ?_⟩
  · rw [processEvents_status, hstatus]
  · simp [processEvents, List.foldl_append]
  · intro hctx
    simp only [onmessage, haud, hctx, hmal]

/-- Witness for C9: the payload `"!"` is rejected by the decoder and the
session keeps listening. -/
theorem malformed_audio_recoverable_witness :
    (processEvents
        ⟨[], "", "", SessionStatus.listening, true, true, true, true, true,
          ⟨0, [], []⟩, ""⟩
        ([] ++ (⟨some ("!"), none, none, false, false, 0, 7, "i", 0⟩ : ServerMsg)
          :: [])).status = SessionStatus.listening :=
  (malformed_audio_recoverable _ [] [] _ ("!") rfl (by decide) rfl).1

/-! ## C10: role of flushed entries -/

lemma applyHistoryOps_role (ops : List HistoryOp) :
    ∀ l : List TranscriptEntry, (∀ e ∈ l, e.role = "Professor") →
      hasToggle ops = false →
      ∀ e ∈ applyHistoryOps l ops, e.role = "Professor" := by
  induction ops with
  | nil =>
      intro l hl _ e he
      exact hl e he
  | cons op rest ih =>
      intro l hl hops
      have hop : (match op with
          | HistoryOp.toggle _ => true
          | _ => false) = false ∧ hasToggle rest = false := by
        simp [hasToggle] at hops ⊢
        tauto
      intro e he
      rw [applyHistoryOps, List.foldl_cons] at he
      cases op with
      | flush fid fts finp fout =>
          refine ih _ ?_ hop.2 e he
          intro a ha
          rcases mem_saveToHistory fid fts finp fout l a ha with hm | ⟨rfl, _⟩
          · exact hl a hm
          · rfl
      | toggle tid => simp at hop
      | clear =>
          refine ih _ ?_ hop.2 e he
          intro a ha
          simp [applyHistoryOp, clearHistory] at ha

/-- C10: every entry created by a flush has role `"Professor"`; over any
sequence of history operations containing no role toggle, an
all-Professor store stays all-Professor, so `"Student"` can only arise
from the post-hoc toggle. -/
theorem flush_role_professor (newId : String) (ts : Nat)
    (input output : String) (l : List TranscriptEntry) (ops : List HistoryOp)
    (hl : ∀ e ∈ l, e.role = "Professor") (hops : hasToggle ops = false) :
    (mkTranscriptEntry newId ts input output).role = "Professor" ∧
    (∀ e ∈ saveToHistory newId ts input output l,
      e ∈ l ∨ e.role = "Professor") ∧
    (∀ e ∈ applyHistoryOps l ops, e.role = "Professor") := by
  refine ⟨rfl, ?_, applyHistoryOps_role ops l hl hops⟩
  intro e he
  rcases mem_saveToHistory newId ts input output l e he with hmem | ⟨rfl, _⟩
  · exact Or.inl hmem
  · exact Or.inr rfl

/-- Witness for C10: after a flush, a clear and another flush, the entry
in the store has role Professor. -/
theorem flush_role_professor_witness :
    (mkTranscriptEntry ("i2") 1 ("b") ("")).role = "Professor" :=
  (flush_role_professor ("i0") 0 ("s") ("t") []
    [HistoryOp.flush ("i1") 0 ("a") (""), HistoryOp.clear,
     HistoryOp.flush ("i2") 1 ("b") ("")]
    (by simp) (by decide)).2.2
    (mkTranscriptEntry ("i2") 1 ("b") ("")) (by decide)

end EduTranslate
